import Mathlib

set_option maxRecDepth 8000

/- Formal model of the memory-assistant application. Client functions are
   translated from the React sources (UnifiedMemoryCard.tsx, memoryStore.ts,
   Timeline page, CreateMemory page); backend operations that are absent from
   the repository sources are modelled from the written specification and each
   such definition is marked as modelled from the spec. -/

inductive SourceType
  | text
  | file
  | url
  | image
deriving DecidableEq

structure Tag where
  id : Nat
  name : String
deriving DecidableEq

structure Category where
  id : Nat
  name : String
deriving DecidableEq

/- Client-side record shape, from frontend/src/types/memory.ts. ISO timestamp
   strings, which the sources always compare through Date.getTime, are
   modelled as natural numbers. -/
structure Memory where
  id : String
  title : String
  content : String
  summary : Option String
  source_type : SourceType
  source_url : Option String
  file_path : Option String
  mime_type : Option String
  status : String
  is_favorite : Bool
  created_at : Nat
  tags : List Tag
  category : Option Category
  processing_step : String
deriving DecidableEq

/- JavaScript String.prototype.split with a one-character separator: splits a
   character list at every character satisfying p, keeping empty segments.
   "".split(sep) gives [""], hence the base case returns one empty segment. -/
def splitByPred (p : Char → Bool) : List Char → List (List Char)
  | [] => [[]]
  | c :: cs =>
    let r := splitByPred p cs
    if p c then [] :: r
    else
      match r with
      | [] => [[c]]
      | w :: ws => (c :: w) :: ws

def spaceChar : Char := Char.ofNat 32

/- Word count used by getSummaryButtonState in UnifiedMemoryCard.tsx:
   memory.content ? memory.content.split(" ").length : 0. -/
def contentWordCount (content : String) : Nat :=
  if content.data.isEmpty then 0
  else (splitByPred (fun c => c == spaceChar) content.data).length

/- Whitespace-separated words of a string (empty segments dropped), the
   reading of word count used by the specification text. -/
def specWords (s : String) : List (List Char) :=
  (splitByPred Char.isWhitespace s.data).filter (fun w => !w.isEmpty)

def specWordCount (s : String) : Nat :=
  (specWords s).length

/- JavaScript s.trim() is truthy exactly when s has a non-whitespace
   character; the sources only ever use trim() for this test. -/
def isBlank (s : String) : Bool :=
  s.data.all Char.isWhitespace

/- JavaScript truthiness of memory.summary (null and "" are falsy). -/
def summaryFalsy : Option String → Bool
  | none => true
  | some s => s.data.isEmpty

/- States of the summary action button computed by getSummaryButtonState in
   UnifiedMemoryCard.tsx, identified by their button text. -/
inductive SummaryButton
  | tooShortContent
  | tooShortSentinel
  | failedSentinel
  | generateNew
  | regenerate
deriving DecidableEq

/- getSummaryButtonState, UnifiedMemoryCard.tsx lines 206-259. -/
def getSummaryButtonState (m : Memory) : SummaryButton :=
  if contentWordCount m.content < 10 then SummaryButton.tooShortContent
  else if m.summary = some ("TOO_SHORT") then SummaryButton.tooShortSentinel
  else if m.summary = some ("ERROR_GENERATED") then SummaryButton.failedSentinel
  else if summaryFalsy m.summary then SummaryButton.generateNew
  else SummaryButton.regenerate

/- The disabled flag carried by each summary button state in the source. -/
def summaryButtonDisabled (m : Memory) : Bool :=
  match getSummaryButtonState m with
  | SummaryButton.tooShortContent => true
  | SummaryButton.tooShortSentinel => true
  | SummaryButton.failedSentinel => true
  | SummaryButton.generateNew => false
  | SummaryButton.regenerate => false

/- Whether handleSummarize (UnifiedMemoryCard.tsx lines 294-316) reaches the
   onSummarize request: it returns early when the callback is missing, the
   button state is disabled, or a summarization is already running. -/
def handleSummarizeRequests (hasOnSummarize : Bool) (m : Memory)
    (isSummarizing : Bool) : Bool :=
  hasOnSummarize && !summaryButtonDisabled m && !isSummarizing

/- The summary section is rendered (renderSummarySection, UnifiedMemoryCard.tsx
   lines 512-519) only when hasSummary is truthy: a non-null summary whose
   trim is truthy and which is neither sentinel value. -/
def showsSummarySection (m : Memory) : Bool :=
  match m.summary with
  | none => false
  | some s =>
    !s.data.isEmpty && !isBlank s &&
      !(s == "TOO_SHORT") && !(s == "ERROR_GENERATED")

/- getEditButtonState (UnifiedMemoryCard.tsx lines 262-289): the returned
   disabled flag depends only on the source type. -/
def editStateDisabled (m : Memory) : Bool :=
  if m.source_type = SourceType.text then false else true

/- isProcessing, UnifiedMemoryCard.tsx line 162. -/
def isProcessing (m : Memory) : Bool :=
  m.processing_step != "complete"

/- The edit button element is rendered with
   disabled = editButtonState.disabled or isProcessing
   (UnifiedMemoryCard.tsx line 773). -/
def editButtonDisabledAttr (m : Memory) : Bool :=
  editStateDisabled m || isProcessing m

/- Fallback title built by createMemory in memoryStore.ts line 47:
   content.substring(0, 75) + (content.length > 75 ? "..." : ""). -/
def fallbackTitle (content : String) : String :=
  String.mk (content.data.take 75) ++
    (if 75 < content.data.length then ("...") else (""))

inductive SearchType
  | hybrid
  | semantic
  | keyword
deriving DecidableEq

/- MemoryFilters from frontend/src/types/memory.ts; null becomes none. -/
structure MemoryFilters where
  sourceType : Option SourceType
  favoritesOnly : Bool
  categoryId : Option Nat
  searchType : SearchType

structure SearchResult where
  memory : Memory
  score : Nat
deriving DecidableEq

/- The local filter applied by Timeline.performSearch when the trimmed query
   is empty. JavaScript truthiness of filters.categoryId makes a zero id skip
   the category test. -/
def sourceFilterRejects (f : Option SourceType) (m : Memory) : Bool :=
  match f with
  | none => false
  | some t => m.source_type != t

def categoryFilterRejects (f : Option Nat) (m : Memory) : Bool :=
  match f with
  | none => false
  | some c => if c = 0 then false else m.category.map Category.id != some c

def passesLocalFilters (f : MemoryFilters) (m : Memory) : Bool :=
  !(f.favoritesOnly && !m.is_favorite) &&
    !sourceFilterRejects f.sourceType m &&
    !categoryFilterRejects f.categoryId m

/- Observable effect of one run of Timeline.performSearch (Timeline page,
   lines 76-111): either local results are produced without any request, or a
   search request with the query and search type is issued. -/
inductive SearchAction
  | localResults (rs : List SearchResult)
  | apiRequest (q : String) (t : SearchType)
deriving DecidableEq

def performSearch (q : String) (f : MemoryFilters) (ms : List Memory) :
    SearchAction :=
  if isBlank q then
    SearchAction.localResults
      ((ms.filter (passesLocalFilters f)).map (fun m => ⟨m, 1⟩))
  else SearchAction.apiRequest q f.searchType

/-- Modelled from the spec: the Hybrid Retrieval Engine `search` operation is
not part of the repository sources; per the specification, empty query text
under any mode returns the empty result set, and otherwise the engine (left
abstract here) produces the ranked results. -/
def searchWithEmptyGuard
    (engine : String → SearchType → MemoryFilters → List SearchResult)
    (q : String) (t : SearchType) (f : MemoryFilters) : List SearchResult :=
  if isBlank q then [] else engine q t f

/- Outcome of CreateMemory.handleSave (CreateMemory page, lines 16-41),
   identified by the notification it shows. -/
inductive SaveOutcome
  | emptyContentError
  | saved
  | duplicateError
  | genericError
deriving DecidableEq

/- Response of the POST request as seen by handleSave: success, or a failure
   carrying error.response?.status (none when no response arrived). -/
inductive ApiResponse
  | created
  | failed (status : Option Nat)
deriving DecidableEq

def handleSave (content : String) (resp : ApiResponse) : SaveOutcome :=
  if isBlank content then SaveOutcome.emptyContentError
  else
    match resp with
    | ApiResponse.created => SaveOutcome.saved
    | ApiResponse.failed s =>
      if s = some 409 then SaveOutcome.duplicateError
      else SaveOutcome.genericError

/-- Modelled from the spec: the Fingerprint Guard `compute_hash` over
normalized (whitespace-collapsed, case-preserved) text is not part of the
repository sources. Exact-match deduplication only depends on equality of
hashes of canonical content, so the hash is modelled injectively as the
whitespace-collapsed word list itself. -/
def canonicalHash (s : String) : List (List Char) :=
  specWords s

structure StoredRecord where
  id : Nat
  content : String
  content_hash : List (List Char)
deriving DecidableEq

structure ServerState where
  records : List StoredRecord
  nextId : Nat
deriving DecidableEq

inductive SubmitResult
  | created (id : Nat)
  | conflict409 (existingId : Nat)
deriving DecidableEq

/-- Modelled from the spec: the ingestion submission surface and the
Fingerprint Guard `check` are not part of the repository sources. A duplicate
content hash among stored records is rejected with a conflict signal (HTTP
409) referencing the existing record's id and stores nothing; otherwise a
record is created. -/
def submitMemory (content : String) (st : ServerState) :
    SubmitResult × ServerState :=
  match st.records.find? (fun r => r.content_hash == canonicalHash content) with
  | some r => (SubmitResult.conflict409 r.id, st)
  | none =>
    (SubmitResult.created st.nextId,
      { records := st.records ++ [⟨st.nextId, content, canonicalHash content⟩],
        nextId := st.nextId + 1 })

/- Zustand store state from memoryStore.ts. -/
structure StoreState where
  memories : List Memory
  isLoading : Bool
deriving DecidableEq

/- Non-increasing creation time, the order produced by the comparator
   (a, b) => b.created_at - a.created_at in fetchAllMemories. -/
def createdAtGe (a b : Memory) : Prop :=
  b.created_at ≤ a.created_at

instance : DecidableRel createdAtGe :=
  fun a b => Nat.decLe b.created_at a.created_at

instance : IsTotal Memory createdAtGe :=
  ⟨fun a b => (Nat.le_total b.created_at a.created_at).imp id id⟩

instance : IsTrans Memory createdAtGe :=
  ⟨fun _ _ _ h1 h2 => Nat.le_trans h2 h1⟩

/- JavaScript Array.prototype.sort with the descending created_at comparator:
   it produces some permutation of the input sorted by the comparator, which
   is modelled by insertion sort under createdAtGe. -/
def sortMemories (l : List Memory) : List Memory :=
  List.insertionSort createdAtGe l

/- fetchAllMemories (memoryStore.ts lines 29-41): isLoading is set, then the
   service call either resolves with a list to sort and store, or rejects,
   in which case only isLoading is reset. -/
def fetchAllMemories (fetchResult : Except Unit (List Memory))
    (s : StoreState) : StoreState :=
  let s1 : StoreState := { s with isLoading := true }
  match fetchResult with
  | Except.ok ms => { s1 with memories := sortMemories ms, isLoading := false }
  | Except.error _ => { s1 with isLoading := false }

/- First phase of toggleFavorite (memoryStore.ts lines 98-101): flip
   is_favorite on every stored memory whose id matches the argument. -/
def optimisticToggle (mem : Memory) (ms : List Memory) : List Memory :=
  ms.map (fun m =>
    if m.id = mem.id then { m with is_favorite := !m.is_favorite } else m)

/- Rollback phase of toggleFavorite (memoryStore.ts lines 110-116): restore
   is_favorite from the memory argument on every matching entry. -/
def rollbackToggle (mem : Memory) (ms : List Memory) : List Memory :=
  ms.map (fun m =>
    if m.id = mem.id then { m with is_favorite := mem.is_favorite } else m)

/- Store contents after a toggleFavorite run whose service call failed:
   the optimistic update followed by the rollback. -/
def toggleFavoriteFailed (mem : Memory) (ms : List Memory) : List Memory :=
  rollbackToggle mem (optimisticToggle mem ms)

/- Processing steps of the ingestion pipeline, in the forward order given by
   the specification, together with the terminal error state. -/
inductive Step
  | pending
  | generating_title
  | generating_tags
  | generating_summary
  | categorizing
  | embedding
  | complete
  | error
deriving DecidableEq

/- Position of a step in the forward order; error sits past complete. -/
def Step.ord : Step → Nat
  | Step.pending => 0
  | Step.generating_title => 1
  | Step.generating_tags => 2
  | Step.generating_summary => 3
  | Step.categorizing => 4
  | Step.embedding => 5
  | Step.complete => 6
  | Step.error => 7

def Step.next : Step → Step
  | Step.pending => Step.generating_title
  | Step.generating_title => Step.generating_tags
  | Step.generating_tags => Step.generating_summary
  | Step.generating_summary => Step.categorizing
  | Step.categorizing => Step.embedding
  | Step.embedding => Step.complete
  | s => s

/- Steps whose work either succeeds or has a deterministic fallback, so that
   the pipeline advances past them in both cases (title, tags, summary with
   its sentinels, category). -/
def Step.isMeta : Step → Bool
  | Step.pending => true
  | Step.generating_title => true
  | Step.generating_tags => true
  | Step.generating_summary => true
  | Step.categorizing => true
  | _ => false

/-- Modelled from the spec: the backend state visible to the ingestion
pipeline and the Vector Index is not part of the repository sources. Records
are an association list from identifier to processing step, and the index
holds the identifiers that own an embedding. -/
structure SystemState where
  records : List (Nat × Step)
  index : List Nat
  nextId : Nat

def lookupStep (id : Nat) : List (Nat × Step) → Option Step
  | [] => none
  | p :: l => if p.1 = id then some p.2 else lookupStep id l

def setStep (id : Nat) (s : Step) (l : List (Nat × Step)) :
    List (Nat × Step) :=
  l.map (fun p => if p.1 = id then (id, s) else p)

/-- Modelled from the spec: the transitions of the ingestion pipeline, the
regeneration surface and record deletion, which are not part of the
repository sources. Submission creates a pending record; a step with a
fallback advances on success or failure; a successful embedding step upserts
the vector and completes the record; any non-terminal step may fail to the
terminal error state (embedding failure in particular, which stores no
vector); deletion removes the record and cascades to its embedding;
regeneration of a metadata field on a completed record rewrites only that
field, leaving processing_step and the index unchanged. -/
inductive SysStep : SystemState → SystemState → Prop
  | submit (st : SystemState) :
      SysStep st
        ⟨st.records ++ [(st.nextId, Step.pending)], st.index, st.nextId + 1⟩
  | advance (st : SystemState) (id : Nat) (s : Step)
      (h : lookupStep id st.records = some s) (hm : s.isMeta = true) :
      SysStep st ⟨setStep id s.next st.records, st.index, st.nextId⟩
  | embedOk (st : SystemState) (id : Nat)
      (h : lookupStep id st.records = some Step.embedding) :
      SysStep st
        ⟨setStep id Step.complete st.records, id :: st.index, st.nextId⟩
  | stepFail (st : SystemState) (id : Nat) (s : Step)
      (h : lookupStep id st.records = some s)
      (hc : s ≠ Step.complete) (he : s ≠ Step.error) :
      SysStep st ⟨setStep id Step.error st.records, st.index, st.nextId⟩
  | deleteRec (st : SystemState) (id : Nat) :
      SysStep st
        ⟨st.records.filter (fun p => p.1 != id),
          st.index.filter (fun j => j != id), st.nextId⟩
  | regen (st : SystemState) (id : Nat)
      (h : lookupStep id st.records = some Step.complete) :
      SysStep st st

def initState : SystemState := ⟨[], [], 0⟩

def Reachable (st : SystemState) : Prop :=
  Relation.ReflTransGen SysStep initState st

/- Well-formedness tying the Vector Index to record states: identifiers are
   unique, embeddings are unique, identifiers stay below the id counter, and
   an embedding exists exactly for the records marked complete. -/
def SysInv (st : SystemState) : Prop :=
  (st.records.map Prod.fst).Nodup ∧
    st.index.Nodup ∧
    (∀ p ∈ st.records, p.1 < st.nextId) ∧
    (∀ id : Nat, id ∈ st.index ↔ (id, Step.complete) ∈ st.records)

/-- Modelled from the spec: the Metadata Generator `generate_summary`
operation is not part of the repository sources. Below the fixed word-count
threshold (ten, the threshold the client checks) it returns the TOO_SHORT
sentinel without calling the Inference Gateway; otherwise inference runs, and
failed or unusable output yields ERROR_GENERATED. The Bool records whether
inference was attempted. -/
def generate_summary (infer : String → Option String) (text : String) :
    String × Bool :=
  if specWordCount text < 10 then (("TOO_SHORT"), false)
  else
    match infer text with
    | some s => if isBlank s then (("ERROR_GENERATED"), true) else (s, true)
    | none => (("ERROR_GENERATED"), true)

/- Concrete fixtures used to instantiate the theorems below. -/

def baseMemory : Memory :=
  { id := ("m1"), title := ("a title"), content := (""), summary := none,
    source_type := SourceType.text, source_url := none, file_path := none,
    mime_type := none, status := ("complete"), is_favorite := false,
    created_at := 0, tags := [], category := none,
    processing_step := ("complete") }

def memFiveWords : Memory :=
  { baseMemory with content := ("one two three four five") }

def memDoubleSpaced : Memory :=
  { baseMemory with content := ("a  b  c  d  e  f") }

def memShortFailed : Memory :=
  { baseMemory with
    content := ("tiny note"),
    summary := some ("ERROR_GENERATED") }

def memLongTooShort : Memory :=
  { baseMemory with
    content := ("w w w w w w w w w w"),
    summary := some ("TOO_SHORT") }

def memFileComplete : Memory :=
  { baseMemory with source_type := SourceType.file }

def memFavStored : Memory :=
  { baseMemory with is_favorite := true }

def memFavStaleArg : Memory :=
  { baseMemory with is_favorite := false }

def defaultFilters : MemoryFilters :=
  { sourceType := none, favoritesOnly := false, categoryId := none,
    searchType := SearchType.hybrid }

def stOne : SystemState := ⟨[(0, Step.pending)], [], 1⟩

def stTwo : SystemState := ⟨[(0, Step.generating_title)], [], 1⟩

def emptyServer : ServerState := ⟨[], 0⟩

def longText : String :=
  ("abcdefghijklmnopqrstuvwxyzabcdefghijklmnopqrstuvwxyzabcdefghijklmnopqrstuvwxyzab")

/- Helper lemmas about the association list of records. -/

theorem lookupStep_mem {id : Nat} {l : List (Nat × Step)} {s : Step}
    (h : lookupStep id l = some s) : (id, s) ∈ l := by
  induction l with
  | nil => simp [lookupStep] at h
  | cons p l ih =>
    rw [lookupStep] at h
    split at h
    · next hp =>
        obtain ⟨a, b⟩ := p
        simp only at hp
        cases h
        subst hp
        exact List.mem_cons_self _ _
    · exact List.mem_cons_of_mem _ (ih h)

theorem mem_lookupStep {id : Nat} {l : List (Nat × Step)} {s : Step}
    (hnd : (l.map Prod.fst).Nodup) (h : (id, s) ∈ l) :
    lookupStep id l = some s := by
  induction l with
  | nil => simp at h
  | cons p l ih =>
    simp only [List.map_cons, List.nodup_cons] at hnd
    rcases List.mem_cons.mp h with h1 | h1
    · subst h1
      simp [lookupStep]
    · rw [lookupStep]
      split
      · next hp =>
          exfalso
          apply hnd.1
          rw [hp]
          exact List.mem_map.mpr ⟨(id, s), h1, rfl⟩
      · exact ih hnd.2 h1

theorem lookupStep_unique {id : Nat} {l : List (Nat × Step)} {s t : Step}
    (hnd : (l.map Prod.fst).Nodup) (hs : (id, s) ∈ l) (ht : (id, t) ∈ l) :
    s = t := by
  have h1 := mem_lookupStep hnd hs
  have h2 := mem_lookupStep hnd ht
  rw [h1] at h2
  exact Option.some.inj h2

theorem lookupStep_append_left {id : Nat} {l : List (Nat × Step)}
    (l2 : List (Nat × Step)) {s : Step} (h : lookupStep id l = some s) :
    lookupStep id (l ++ l2) = some s := by
  induction l with
  | nil => simp [lookupStep] at h
  | cons p l ih =>
    by_cases hp : p.1 = id
    · rw [lookupStep, if_pos hp] at h
      rw [List.cons_append, lookupStep, if_pos hp]
      exact h
    · rw [lookupStep, if_neg hp] at h
      rw [List.cons_append, lookupStep, if_neg hp]
      exact ih h

theorem lookupStep_setStep_self {id : Nat} {l : List (Nat × Step)} {s : Step}
    (t : Step) (h : lookupStep id l = some s) :
    lookupStep id (setStep id t l) = some t := by
  induction l with
  | nil => simp [lookupStep] at h
  | cons p l ih =>
    by_cases hp : p.1 = id
    · simp [setStep, lookupStep, hp]
    · rw [lookupStep, if_neg hp] at h
      simp only [setStep, List.map_cons, if_neg hp]
      rw [lookupStep, if_neg hp]
      exact ih h

theorem lookupStep_setStep_ne {j id : Nat} {l : List (Nat × Step)} (t : Step)
    (hne : j ≠ id) : lookupStep j (setStep id t l) = lookupStep j l := by
  induction l with
  | nil => simp [setStep, lookupStep]
  | cons p l ih =>
    by_cases hp : p.1 = id
    · simp only [setStep, List.map_cons, if_pos hp] at ih ⊢
      rw [lookupStep, if_neg (fun hc => hne hc.symm), lookupStep,
        if_neg (fun hc => hne (hp ▸ hc).symm)]
      exact ih
    · simp only [setStep, List.map_cons, if_neg hp] at ih ⊢
      by_cases hj : p.1 = j
      · rw [lookupStep, if_pos hj, lookupStep, if_pos hj]
      · rw [lookupStep, if_neg hj, lookupStep, if_neg hj]
        exact ih

theorem lookupStep_filter_self {id : Nat} {l : List (Nat × Step)} :
    lookupStep id (l.filter (fun p => p.1 != id)) = none := by
  induction l with
  | nil => simp [lookupStep]
  | cons p l ih =>
    by_cases hp : p.1 = id
    · simpa [List.filter_cons, hp] using ih
    · rw [List.filter_cons_of_pos (by simp [hp])]
      rw [lookupStep, if_neg hp]
      exact ih

theorem lookupStep_filter_ne {j id : Nat} {l : List (Nat × Step)}
    (hne : j ≠ id) :
    lookupStep j (l.filter (fun p => p.1 != id)) = lookupStep j l := by
  induction l with
  | nil => simp
  | cons p l ih =>
    by_cases hp : p.1 = id
    · rw [List.filter_cons_of_neg (by simp [hp]), lookupStep,
        if_neg (fun hc => hne (hp ▸ hc).symm)]
      exact ih
    · rw [List.filter_cons_of_pos (by simp [hp])]
      by_cases hj : p.1 = j
      · rw [lookupStep, if_pos hj, lookupStep, if_pos hj]
      · rw [lookupStep, if_neg hj, lookupStep, if_neg hj]
        exact ih

theorem setStep_map_fst (id : Nat) (t : Step) (l : List (Nat × Step)) :
    (setStep id t l).map Prod.fst = l.map Prod.fst := by
  induction l with
  | nil => rfl
  | cons p l ih =>
    by_cases hp : p.1 = id
    · simp only [setStep, List.map_cons, if_pos hp] at ih ⊢
      rw [ih]
      simp [hp]
    · simp only [setStep, List.map_cons, if_neg hp] at ih ⊢
      rw [ih]

theorem mem_setStep {q : Nat × Step} {id : Nat} {t : Step}
    {l : List (Nat × Step)} (h : q ∈ setStep id t l) :
    ∃ p ∈ l, q = if p.1 = id then (id, t) else p := by
  obtain ⟨p, hp, rfl⟩ := List.mem_map.mp h
  exact ⟨p, hp, rfl⟩

theorem complete_mem_setStep_of_ne {id : Nat} {l : List (Nat × Step)}
    {s t : Step} (hnd : (l.map Prod.fst).Nodup)
    (h : lookupStep id l = some s) (hs : s ≠ Step.complete)
    (ht : t ≠ Step.complete) (j : Nat) :
    (j, Step.complete) ∈ setStep id t l ↔ (j, Step.complete) ∈ l := by
  constructor
  · intro hmem
    obtain ⟨p, hp, hq⟩ := mem_setStep hmem
    by_cases hpi : p.1 = id
    · rw [if_pos hpi] at hq
      exact absurd (congrArg Prod.snd hq).symm ht
    · rw [if_neg hpi] at hq
      exact hq ▸ hp
  · intro hmem
    by_cases hj : j = id
    · subst hj
      exact absurd (lookupStep_unique hnd (lookupStep_mem h) hmem) hs
    · refine List.mem_map.mpr ⟨(j, Step.complete), hmem, ?_⟩
      rw [if_neg (by simpa using hj)]

theorem complete_mem_setStep_complete {id : Nat} {l : List (Nat × Step)}
    {s : Step} (h : lookupStep id l = some s) (j : Nat) :
    (j, Step.complete) ∈ setStep id Step.complete l ↔
      (j = id ∨ (j, Step.complete) ∈ l) := by
  constructor
  · intro hmem
    obtain ⟨p, hp, hq⟩ := mem_setStep hmem
    by_cases hpi : p.1 = id
    · rw [if_pos hpi] at hq
      exact Or.inl (congrArg Prod.fst hq)
    · rw [if_neg hpi] at hq
      exact Or.inr (hq ▸ hp)
  · intro hmem
    rcases hmem with hj | hj
    · subst hj
      refine List.mem_map.mpr ⟨(j, s), lookupStep_mem h, ?_⟩
      rw [if_pos rfl]
    · refine List.mem_map.mpr ⟨(j, Step.complete), hj, ?_⟩
      by_cases hji : j = id
      · subst hji
        rw [if_pos rfl]
      · rw [if_neg (by simpa using hji)]

theorem metaStep_ne_complete {s : Step} (hm : s.isMeta = true) :
    s ≠ Step.complete := by
  cases s <;> simp [Step.isMeta] at hm ⊢

theorem metaStep_next_ne_complete {s : Step} (hm : s.isMeta = true) :
    s.next ≠ Step.complete := by
  cases s <;> simp [Step.isMeta, Step.next] at hm ⊢

theorem sysInv_init : SysInv initState := by
  refine ⟨List.nodup_nil, List.nodup_nil, ?_, ?_⟩
  · intro p hp
    simp [initState] at hp
  · intro id
    simp [initState]

theorem sysInv_preserved {st st' : SystemState} (hinv : SysInv st)
    (h : SysStep st st') : SysInv st' := by
  obtain ⟨h1, h2, h3, h4⟩ := hinv
  cases h with
  | submit =>
    refine ⟨?_, h2, ?_, ?_⟩
    · simp only [List.map_append, List.map_cons, List.map_nil]
      rw [List.nodup_append]
      refine ⟨h1, List.nodup_singleton _, ?_⟩
      intro a ha hb
      obtain ⟨p, hp, rfl⟩ := List.mem_map.mp ha
      simp only [List.mem_singleton] at hb
      exact absurd (hb ▸ h3 p hp) (lt_irrefl _)
    · intro p hp
      rcases List.mem_append.mp hp with hp1 | hp1
      · exact Nat.lt_succ_of_lt (h3 p hp1)
      · simp only [List.mem_singleton] at hp1
        subst hp1
        exact Nat.lt_succ_self _
    · intro id
      rw [List.mem_append]
      constructor
      · intro hid
        exact Or.inl ((h4 id).mp hid)
      · intro hid
        rcases hid with hid | hid
        · exact (h4 id).mpr hid
        · simp at hid
  | advance id0 s0 h0 hm =>
    refine ⟨?_, h2, ?_, ?_⟩
    · rw [setStep_map_fst]
      exact h1
    · intro p hp
      obtain ⟨q, hq, hpq⟩ := mem_setStep hp
      by_cases hqi : q.1 = id0
      · rw [if_pos hqi] at hpq
        subst hpq
        exact hqi ▸ h3 q hq
      · rw [if_neg hqi] at hpq
        exact hpq ▸ h3 q hq
    · intro id
      rw [complete_mem_setStep_of_ne h1 h0 (metaStep_ne_complete hm)
        (metaStep_next_ne_complete hm)]
      exact h4 id
  | embedOk id0 h0 =>
    have hnotin : id0 ∉ st.index := by
      intro hc
      have := lookupStep_unique h1 (lookupStep_mem h0) ((h4 id0).mp hc)
      simp at this
    refine ⟨?_, List.nodup_cons.mpr ⟨hnotin, h2⟩, ?_, ?_⟩
    · rw [setStep_map_fst]
      exact h1
    · intro p hp
      obtain ⟨q, hq, hpq⟩ := mem_setStep hp
      by_cases hqi : q.1 = id0
      · rw [if_pos hqi] at hpq
        subst hpq
        exact hqi ▸ h3 q hq
      · rw [if_neg hqi] at hpq
        exact hpq ▸ h3 q hq
    · intro id
      rw [complete_mem_setStep_complete h0 id]
      simp only [List.mem_cons]
      constructor
      · intro hid
        rcases hid with hid | hid
        · exact Or.inl hid
        · exact Or.inr ((h4 id).mp hid)
      · intro hid
        rcases hid with hid | hid
        · exact Or.inl hid
        · exact Or.inr ((h4 id).mpr hid)
  | stepFail id0 s0 h0 hc he =>
    refine ⟨?_, h2, ?_, ?_⟩
    · rw [setStep_map_fst]
      exact h1
    · intro p hp
      obtain ⟨q, hq, hpq⟩ := mem_setStep hp
      by_cases hqi : q.1 = id0
      · rw [if_pos hqi] at hpq
        subst hpq
        exact hqi ▸ h3 q hq
      · rw [if_neg hqi] at hpq
        exact hpq ▸ h3 q hq
    · intro id
      rw [complete_mem_setStep_of_ne h1 h0 hc (by simp)]
      exact h4 id
  | deleteRec id0 =>
    refine ⟨?_, List.Nodup.filter _ h2, ?_, ?_⟩
    · exact ((List.filter_sublist st.records).map Prod.fst).nodup h1
    · intro p hp
      exact h3 p (List.mem_of_mem_filter hp)
    · intro id
      rw [List.mem_filter, List.mem_filter]
      simp only [bne_iff_ne, ne_eq, decide_eq_true_eq]
      rw [h4 id]
  | regen id0 h0 =>
    exact ⟨h1, h2, h3, h4⟩

theorem sysInv_of_reachable {st : SystemState} (h : Reachable st) :
    SysInv st := by
  induction h with
  | refl => exact sysInv_init
  | tail _ hstep ih => exact sysInv_preserved ih hstep

/-- C6: in every reachable system state, an embedding exists in the Vector
Index for a record if and only if that record has completed the embedding
step: every record with processing_step complete owns exactly one embedding,
and no record that has not completed the embedding step (records in error
from the embedding step included) owns one. -/
theorem embedding_iff_completed (st : SystemState) (h : Reachable st)
    (id : Nat) (s : Step) (hm : (id, s) ∈ st.records) :
    (s = Step.complete → st.index.count id = 1) ∧
    (s ≠ Step.complete → id ∉ st.index) := by
  obtain ⟨h1, h2, h3, h4⟩ := sysInv_of_reachable h
  constructor
  · intro hs
    subst hs
    exact List.count_eq_one_of_mem h2 ((h4 id).mpr hm)
  · intro hs hc
    exact hs (lookupStep_unique h1 hm ((h4 id).mp hc))

/-- Witness for C6: a freshly submitted record, reachable in one step from
the initial state, is pending and owns no embedding. -/
theorem embedding_iff_completed_witness :
    (0, Step.pending) ∈ stOne.records ∧ Step.pending ≠ Step.complete ∧
      (0 : Nat) ∉ stOne.index := by
  refine ⟨by decide, by decide, ?_⟩
  exact (embedding_iff_completed stOne
    (Relation.ReflTransGen.single (SysStep.submit initState)) 0 Step.pending
    (by decide)).2 (by decide)

/-- C7: along every transition of the modelled pipeline, regeneration surface
or deletion, a record's processing_step either stays put, moves strictly
forward in the defined order without entering error, or jumps to the terminal
error state from a non-terminal state; it never regresses. -/
theorem processing_step_never_regresses {st st' : SystemState}
    (h : SysStep st st') (id : Nat) (s s' : Step)
    (hb : lookupStep id st.records = some s)
    (ha : lookupStep id st'.records = some s') :
    s' = s ∨ (s ≠ Step.error ∧ s' ≠ Step.error ∧ s.ord < s'.ord) ∨
      (s' = Step.error ∧ s ≠ Step.complete ∧ s ≠ Step.error) := by
  cases h with
  | submit =>
    have h2 := lookupStep_append_left [(st.nextId, Step.pending)] hb
    rw [h2] at ha
    exact Or.inl (Option.some.inj ha).symm
  | advance id0 s0 h0 hm =>
    by_cases hid : id = id0
    · subst hid
      rw [h0] at hb
      have hs := Option.some.inj hb
      have h2 := lookupStep_setStep_self s0.next h0
      rw [h2] at ha
      have hs' := Option.some.inj ha
      right
      left
      rw [← hs, ← hs']
      revert hm
      cases s0 <;> decide
    · rw [lookupStep_setStep_ne _ hid] at ha
      rw [hb] at ha
      exact Or.inl (Option.some.inj ha).symm
  | embedOk id0 h0 =>
    by_cases hid : id = id0
    · subst hid
      rw [h0] at hb
      have hs := Option.some.inj hb
      have h2 := lookupStep_setStep_self Step.complete h0
      rw [h2] at ha
      have hs' := Option.some.inj ha
      right
      left
      rw [← hs, ← hs']
      decide
    · rw [lookupStep_setStep_ne _ hid] at ha
      rw [hb] at ha
      exact Or.inl (Option.some.inj ha).symm
  | stepFail id0 s0 h0 hc he =>
    by_cases hid : id = id0
    · subst hid
      rw [h0] at hb
      have hs := Option.some.inj hb
      have h2 := lookupStep_setStep_self Step.error h0
      rw [h2] at ha
      have hs' := Option.some.inj ha
      exact Or.inr (Or.inr ⟨hs'.symm, hs ▸ hc, hs ▸ he⟩)
    · rw [lookupStep_setStep_ne _ hid] at ha
      rw [hb] at ha
      exact Or.inl (Option.some.inj ha).symm
  | deleteRec id0 =>
    by_cases hid : id = id0
    · subst hid
      rw [lookupStep_filter_self] at ha
      cases ha
    · rw [lookupStep_filter_ne hid] at ha
      rw [hb] at ha
      exact Or.inl (Option.some.inj ha).symm
  | regen id0 h0 =>
    rw [hb] at ha
    exact Or.inl (Option.some.inj ha).symm

/-- Witness for C7: the transition that advances the pending record of stOne
to generating_title moves it strictly forward. -/
theorem processing_step_never_regresses_witness :
    lookupStep 0 stOne.records = some Step.pending ∧
    lookupStep 0 stTwo.records = some Step.generating_title ∧
    (Step.generating_title = Step.pending ∨
      (Step.pending ≠ Step.error ∧ Step.generating_title ≠ Step.error ∧
        Step.pending.ord < Step.generating_title.ord) ∨
      (Step.generating_title = Step.error ∧ Step.pending ≠ Step.complete ∧
        Step.pending ≠ Step.error)) := by
  refine ⟨by decide, by decide, ?_⟩
  exact processing_step_never_regresses
    (SysStep.advance stOne 0 Step.pending (by decide) (by decide))
    0 Step.pending Step.generating_title (by decide) (by decide)

theorem data_nil_eq_empty {s : String} (h : s.data = []) : s = ("") := by
  cases s with
  | mk d => cases h; rfl

theorem isBlank_of_isEmpty {s : String} (h : s.data.isEmpty = true) :
    isBlank s = true := by
  rw [List.isEmpty_iff] at h
  rw [isBlank, h]
  rfl

/-- C5: the edit action is enabled exactly when the memory is text-sourced
and its processing step is complete; every non-text memory has the edit
button disabled regardless of step, and a text memory has it disabled while
its processing step differs from complete. -/
theorem edit_enabled_iff_text_complete (m : Memory) :
    (editButtonDisabledAttr m = false ↔
      (m.source_type = SourceType.text ∧
        m.processing_step = ("complete"))) ∧
    (m.source_type ≠ SourceType.text → editButtonDisabledAttr m = true) ∧
    (m.processing_step ≠ ("complete") → editButtonDisabledAttr m = true) := by
  by_cases h1 : m.source_type = SourceType.text <;>
    by_cases h2 : m.processing_step = ("complete") <;>
      simp [editButtonDisabledAttr, editStateDisabled, isProcessing, h1, h2]

/-- Witness for C5: a file-sourced memory has the edit button disabled even
at the complete step. -/
theorem edit_enabled_iff_text_complete_witness :
    memFileComplete.source_type ≠ SourceType.text ∧
    editButtonDisabledAttr memFileComplete = true := by
  refine ⟨by decide, ?_⟩
  exact (edit_enabled_iff_text_complete memFileComplete).2.1 (by decide)

/-- C8: the fallback title equals the first 75 characters of the content
followed by the ellipsis marker exactly when the content is longer than 75
characters, equals the content itself otherwise, and is never empty for
non-empty content. -/
theorem fallback_title_truncates (content : String) :
    (75 < content.data.length →
      fallbackTitle content = String.mk (content.data.take 75) ++ ("...")) ∧
    (content.data.length ≤ 75 → fallbackTitle content = content) ∧
    (content ≠ ("") → fallbackTitle content ≠ ("")) := by
  refine ⟨?_, ?_, ?_⟩
  · intro h
    rw [fallbackTitle, if_pos h]
  · intro h
    rw [fallbackTitle, if_neg (not_lt.mpr h), List.take_of_length_le h]
    cases content with
    | mk d => simp
  · intro h hc
    by_cases hl : 75 < content.data.length
    · rw [fallbackTitle, if_pos hl] at hc
      have hd := congrArg String.data hc
      rw [String.data_append] at hd
      simp at hd
    · rw [fallbackTitle, if_neg hl,
        List.take_of_length_le (not_lt.mp hl)] at hc
      have hd := congrArg String.data hc
      rw [String.data_append] at hd
      simp at hd
      exact h (data_nil_eq_empty hd)

/-- Witness for C8: an 82-character content is truncated to 75 characters
plus the ellipsis, and a short content is returned whole. -/
theorem fallback_title_truncates_witness :
    75 < longText.data.length ∧
    fallbackTitle longText = String.mk (longText.data.take 75) ++ ("...") ∧
    fallbackTitle ("short") = ("short") := by
  refine ⟨by decide, ?_, ?_⟩
  · exact (fallback_title_truncates longText).1 (by decide)
  · exact (fallback_title_truncates ("short")).2.1 (by decide)

/-- C2 counterexample: the content of memDoubleSpaced has six
whitespace-separated words, fewer than ten, yet the client does not disable
the summarize action, because the source counts segments of a split on the
single space character (eleven here, the runs of two spaces each contributing
an empty segment) rather than whitespace-separated words; handleSummarize
then issues the request. -/
theorem summary_too_short_guard_counterexample :
    specWordCount memDoubleSpaced.content < 10 ∧
    getSummaryButtonState memDoubleSpaced ≠ SummaryButton.tooShortContent ∧
    summaryButtonDisabled memDoubleSpaced = false ∧
    handleSummarizeRequests true memDoubleSpaced false = true := by decide

/-- C2 (amended): for every memory whose content yields fewer than ten
segments when split on the single space character (the count the client
computes, empty segments included), the summarize action is in the disabled
Content Too Short state and handleSummarize performs no request — in
particular for a five-word single-spaced input; and the spec-modelled
generate_summary returns the TOO_SHORT sentinel without attempting inference
whenever the word count is below the threshold. -/
theorem summary_too_short_guard (m : Memory) (b1 b2 : Bool)
    (h : contentWordCount m.content < 10) :
    getSummaryButtonState m = SummaryButton.tooShortContent ∧
    summaryButtonDisabled m = true ∧
    handleSummarizeRequests b1 m b2 = false ∧
    (∀ infer text, specWordCount text < 10 →
      generate_summary infer text = (("TOO_SHORT"), false)) := by
  have hstate : getSummaryButtonState m = SummaryButton.tooShortContent := by
    rw [getSummaryButtonState, if_pos h]
  refine ⟨hstate, ?_, ?_, ?_⟩
  · rw [summaryButtonDisabled, hstate]
  · simp [handleSummarizeRequests, summaryButtonDisabled, hstate]
  · intro infer text ht
    rw [generate_summary, if_pos ht]

/-- Witness for C2: a five-word input disables the action, blocks the
request, and generate_summary returns TOO_SHORT without inference. -/
theorem summary_too_short_guard_witness :
    contentWordCount memFiveWords.content < 10 ∧
    getSummaryButtonState memFiveWords = SummaryButton.tooShortContent ∧
    summaryButtonDisabled memFiveWords = true ∧
    handleSummarizeRequests true memFiveWords false = false ∧
    generate_summary (fun _ => none) memFiveWords.content =
      (("TOO_SHORT"), false) := by
  have h := summary_too_short_guard memFiveWords true false (by decide)
  exact ⟨by decide, h.1, h.2.1, h.2.2.1, h.2.2.2 _ _ (by decide)⟩

/-- C4 counterexample: a memory with short content and the ERROR_GENERATED
sentinel is shown as Content Too Short, not as the disabled failed state the
claim requires, because the word-count branch precedes the sentinel
branches. -/
theorem summary_sentinel_mapping_counterexample :
    memShortFailed.summary = some ("ERROR_GENERATED") ∧
    getSummaryButtonState memShortFailed = SummaryButton.tooShortContent ∧
    getSummaryButtonState memShortFailed ≠ SummaryButton.failedSentinel := by
  decide

/-- C4 (amended): for every memory whose content has at least ten
single-space-separated segments (the guard the source checks first), the
summary button state maps the TOO_SHORT sentinel to the disabled too-short
state, the ERROR_GENERATED sentinel to the disabled failed state, an absent
or empty summary to the enabled Generate Summary state, and any other
non-empty summary to the enabled Regenerate Summary state; for memories
below that guard the state is the disabled too-short state regardless of the
summary. Unconditionally, the summary section is rendered if and only if the
summary is present, not blank after trimming, and equal to neither
sentinel. -/
theorem summary_sentinel_mapping (m : Memory) :
    (10 ≤ contentWordCount m.content →
      ((m.summary = some ("TOO_SHORT") →
        getSummaryButtonState m = SummaryButton.tooShortSentinel ∧
          summaryButtonDisabled m = true) ∧
        (m.summary = some ("ERROR_GENERATED") →
          getSummaryButtonState m = SummaryButton.failedSentinel ∧
            summaryButtonDisabled m = true) ∧
        (summaryFalsy m.summary = true →
          getSummaryButtonState m = SummaryButton.generateNew ∧
            summaryButtonDisabled m = false) ∧
        (∀ s, m.summary = some s → s ≠ ("") → s ≠ ("TOO_SHORT") →
          s ≠ ("ERROR_GENERATED") →
          getSummaryButtonState m = SummaryButton.regenerate ∧
            summaryButtonDisabled m = false))) ∧
    (contentWordCount m.content < 10 →
      getSummaryButtonState m = SummaryButton.tooShortContent) ∧
    (showsSummarySection m = true ↔
      ∃ s, m.summary = some s ∧ isBlank s = false ∧ s ≠ ("TOO_SHORT") ∧
        s ≠ ("ERROR_GENERATED")) := by
  refine ⟨?_, ?_, ?_⟩
  · intro h10
    have hlt : ¬ contentWordCount m.content < 10 := not_lt.mpr h10
    refine ⟨?_, ?_, ?_, ?_⟩
    · intro hs
      have hstate : getSummaryButtonState m = SummaryButton.tooShortSentinel := by
        rw [getSummaryButtonState, if_neg hlt, if_pos hs]
      exact ⟨hstate, by rw [summaryButtonDisabled, hstate]⟩
    · intro hs
      have hstate : getSummaryButtonState m = SummaryButton.failedSentinel := by
        rw [getSummaryButtonState, if_neg hlt, hs]
        decide
      exact ⟨hstate, by rw [summaryButtonDisabled, hstate]⟩
    · intro hfal
      rcases hsum : m.summary with _ | s
      · have hstate : getSummaryButtonState m = SummaryButton.generateNew := by
          rw [getSummaryButtonState, if_neg hlt, hsum]
          decide
        exact ⟨hstate, by rw [summaryButtonDisabled, hstate]⟩
      · rw [hsum] at hfal
        have hnil : s.data = [] := by
          rw [← List.isEmpty_iff]
          exact hfal
        have hse : s = ("") := data_nil_eq_empty hnil
        subst hse
        have hstate : getSummaryButtonState m = SummaryButton.generateNew := by
          rw [getSummaryButtonState, if_neg hlt, hsum]
          decide
        exact ⟨hstate, by rw [summaryButtonDisabled, hstate]⟩
    · intro s hsum hs0 hts hes
      have hstate : getSummaryButtonState m = SummaryButton.regenerate := by
        rw [getSummaryButtonState, if_neg hlt, hsum, if_neg (by simp [hts]),
          if_neg (by simp [hes]),
          if_neg (by
            simp only [summaryFalsy, List.isEmpty_iff]
            exact fun hd => hs0 (data_nil_eq_empty hd))]
      exact ⟨hstate, by rw [summaryButtonDisabled, hstate]⟩
  · intro h
    rw [getSummaryButtonState, if_pos h]
  · rcases hsum : m.summary with _ | s
    · simp [showsSummarySection, hsum]
    · rw [showsSummarySection]
      rw [hsum]
      simp only [Bool.and_eq_true, Bool.not_eq_true', beq_eq_false_iff_ne,
        ne_eq, Option.some.injEq]
      constructor
      · rintro ⟨⟨⟨hne, hb⟩, ht⟩, he⟩
        exact ⟨s, rfl, hb, ht, he⟩
      · rintro ⟨t, rfl, hb, ht, he⟩
        refine ⟨⟨⟨?_, hb⟩, ht⟩, he⟩
        rcases hd : s.data.isEmpty with _ | _
        · rfl
        · exact absurd (isBlank_of_isEmpty hd) (by rw [hb]; decide)

/-- Witness for C4: a long-content memory carrying the TOO_SHORT sentinel is
in the disabled too-short-sentinel state and renders no summary section. -/
theorem summary_sentinel_mapping_witness :
    10 ≤ contentWordCount memLongTooShort.content ∧
    memLongTooShort.summary = some ("TOO_SHORT") ∧
    getSummaryButtonState memLongTooShort = SummaryButton.tooShortSentinel ∧
    summaryButtonDisabled memLongTooShort = true ∧
    showsSummarySection memLongTooShort = false := by
  have h := ((summary_sentinel_mapping memLongTooShort).1 (by decide)).1
    (by decide)
  exact ⟨by decide, by decide, h.1, h.2, by decide⟩

/-- C3: when the query text is empty or only whitespace, the client issues no
search request and instead displays, with score 1, exactly the fetched
memories that pass the local filters, for every filter combination; and the
spec-modelled search returns the empty result set under every mode and
engine, not an error and not all records. -/
theorem empty_query_search (q : String) (f : MemoryFilters) (ms : List Memory)
    (h : isBlank q = true) :
    (∃ rs, performSearch q f ms = SearchAction.localResults rs) ∧
    (∀ rs, performSearch q f ms = SearchAction.localResults rs →
      (∀ r ∈ rs, r.score = 1 ∧ r.memory ∈ ms ∧
        passesLocalFilters f r.memory = true) ∧
      (∀ m ∈ ms, passesLocalFilters f m = true →
        (⟨m, 1⟩ : SearchResult) ∈ rs)) ∧
    (∀ engine t f2, searchWithEmptyGuard engine q t f2 = []) := by
  have hps : performSearch q f ms = SearchAction.localResults
      ((ms.filter (passesLocalFilters f)).map (fun m => ⟨m, 1⟩)) := by
    rw [performSearch, if_pos h]
  refine ⟨⟨_, hps⟩, ?_, ?_⟩
  · intro rs hrs
    rw [hps] at hrs
    injection hrs with hrs
    subst hrs
    constructor
    · intro r hr
      obtain ⟨m, hm, rfl⟩ := List.mem_map.mp hr
      obtain ⟨hmem, hpass⟩ := List.mem_filter.mp hm
      exact ⟨rfl, hmem, hpass⟩
    · intro m hm hpass
      exact List.mem_map.mpr ⟨m, List.mem_filter.mpr ⟨hm, hpass⟩, rfl⟩
  · intro engine t f2
    rw [searchWithEmptyGuard, if_pos h]

/-- Witness for C3: a whitespace query over a one-memory store produces the
local result with score 1 and the spec-modelled search returns nothing. -/
theorem empty_query_search_witness :
    isBlank (" ") = true ∧
    (∀ engine t f2, searchWithEmptyGuard engine (" ") t f2 = []) ∧
    performSearch (" ") defaultFilters [baseMemory] =
      SearchAction.localResults [⟨baseMemory, 1⟩] := by
  refine ⟨by decide, ?_, by decide⟩
  exact (empty_query_search (" ") defaultFilters [baseMemory] (by decide)).2.2

/-- C1: submitting the same canonical content twice stores exactly one
record: the first submission creates it and the second is rejected with the
conflict signal referencing the first record's id, leaving the server state
unchanged; in the client's submission handler the duplicate-content message
is shown if and only if the response status is 409, every other failure
yields the generic failure message. -/
theorem duplicate_submission (content : String) (st : ServerState)
    (hne : isBlank content = false)
    (hnew : ∀ r ∈ st.records, r.content_hash ≠ canonicalHash content) :
    (submitMemory content st).1 = SubmitResult.created st.nextId ∧
    (submitMemory content (submitMemory content st).2).1 =
      SubmitResult.conflict409 st.nextId ∧
    (submitMemory content (submitMemory content st).2).2 =
      (submitMemory content st).2 ∧
    ((submitMemory content st).2.records.filter
      (fun r => r.content_hash == canonicalHash content)).length = 1 ∧
    (∀ s, handleSave content (ApiResponse.failed s) =
        SaveOutcome.duplicateError ↔ s = some 409) ∧
    (∀ s, s ≠ some 409 → handleSave content (ApiResponse.failed s) =
        SaveOutcome.genericError) := by
  have hfind : st.records.find?
      (fun r => r.content_hash == canonicalHash content) = none := by
    rw [List.find?_eq_none]
    intro r hr
    simp only [beq_iff_eq]
    exact hnew r hr
  have e1 : submitMemory content st =
      (SubmitResult.created st.nextId,
        { records := st.records ++ [⟨st.nextId, content, canonicalHash content⟩],
          nextId := st.nextId + 1 }) := by
    rw [submitMemory, hfind]
  have hfind2 : ((st.records ++
      [⟨st.nextId, content, canonicalHash content⟩] : List StoredRecord).find?
      (fun r => r.content_hash == canonicalHash content)) =
      some ⟨st.nextId, content, canonicalHash content⟩ := by
    rw [List.find?_append, hfind]
    simp [List.find?_cons]
  have e2 : submitMemory content (submitMemory content st).2 =
      (SubmitResult.conflict409 st.nextId, (submitMemory content st).2) := by
    rw [e1]
    rw [submitMemory]
    simp only [hfind2]
  have hblank : ¬ isBlank content = true := by
    rw [hne]
    decide
  refine ⟨?_, ?_, ?_, ?_, ?_, ?_⟩
  · rw [e1]
  · rw [e2]
  · rw [e2]
  · rw [e1]
    simp only [List.filter_append]
    rw [List.filter_eq_nil_iff.mpr (by
      intro r hr
      simp only [beq_iff_eq]
      exact hnew r hr)]
    simp
  · intro s
    rw [handleSave, if_neg hblank]
    constructor
    · intro hdup
      by_cases hs : s = some 409
      · exact hs
      · rw [if_neg hs] at hdup
        cases hdup
    · intro hs
      rw [if_pos hs]
  · intro s hs
    rw [handleSave, if_neg hblank, if_neg hs]

/-- Witness for C1: submitting a two-word content twice to the empty server
creates record 0 and the repeat is rejected with a 409 conflict naming it;
a failed client response with status 500 shows the generic message and one
with 409 the duplicate message. -/
theorem duplicate_submission_witness :
    isBlank ("hello world") = false ∧
    (submitMemory ("hello world") emptyServer).1 = SubmitResult.created 0 ∧
    (submitMemory ("hello world")
      (submitMemory ("hello world") emptyServer).2).1 =
      SubmitResult.conflict409 0 ∧
    handleSave ("hello world") (ApiResponse.failed (some 409)) =
      SaveOutcome.duplicateError ∧
    handleSave ("hello world") (ApiResponse.failed (some 500)) =
      SaveOutcome.genericError := by
  have h := duplicate_submission ("hello world") emptyServer (by decide)
    (by intro r hr; simp [emptyServer] at hr)
  exact ⟨by decide, h.1, h.2.1, (h.2.2.2.2.1 (some 409)).mpr rfl,
    h.2.2.2.2.2 (some 500) (by decide)⟩

theorem toggleFailed_eq_map (mem : Memory) (ms : List Memory) :
    toggleFavoriteFailed mem ms = ms.map (fun m =>
      if m.id = mem.id then { m with is_favorite := mem.is_favorite }
      else m) := by
  rw [toggleFavoriteFailed, optimisticToggle, rollbackToggle, List.map_map]
  refine List.map_congr_left ?_
  intro m _
  by_cases h : m.id = mem.id
  · simp only [Function.comp_apply, if_pos h]
  · simp only [Function.comp_apply, if_neg h]

theorem map_toggle_id (mem : Memory) (ms : List Memory)
    (h : ∀ m ∈ ms, m.id = mem.id → m.is_favorite = mem.is_favorite) :
    ms.map (fun m => if m.id = mem.id
      then { m with is_favorite := mem.is_favorite } else m) = ms := by
  induction ms with
  | nil => rfl
  | cons m ms ih =>
    rw [List.map_cons, ih (fun x hx => h x (List.mem_cons_of_mem _ hx))]
    congr 1
    by_cases hm : m.id = mem.id
    · rw [if_pos hm, ← h m (List.mem_cons_self _ _) hm]
    · rw [if_neg hm]

theorem optimisticToggle_frame (mem : Memory) (ms : List Memory) :
    List.Forall₂ (fun a b => b = { a with is_favorite := b.is_favorite } ∧
      (a.id ≠ mem.id → b = a)) ms (optimisticToggle mem ms) := by
  induction ms with
  | nil => exact List.Forall₂.nil
  | cons m ms ih =>
    refine List.Forall₂.cons ?_ ih
    by_cases hm : m.id = mem.id
    · simp only [if_pos hm]
      exact ⟨trivial, fun hne => absurd hm hne⟩
    · simp only [if_neg hm]
      exact ⟨trivial, fun _ => trivial⟩

/-- C9 counterexample: when toggleFavorite is called with a stale memory
argument whose is_favorite disagrees with the stored entry, the failing run
does not restore the pre-call store: the rollback writes the argument's
is_favorite rather than the stored entry's former value. -/
theorem toggle_rollback_counterexample :
    memFavStaleArg.id = memFavStored.id ∧
    toggleFavoriteFailed memFavStaleArg [memFavStored] ≠ [memFavStored] := by
  decide

/-- C9 (amended): provided the memory argument is current — every stored
entry with the target id carries the argument's is_favorite value — a failing
toggleFavorite run leaves the observable store state exactly as it was; and
the optimistic phase is frame-preserving: each entry differs from its old
value at most in is_favorite, and entries with other ids are untouched. -/
theorem toggle_rollback_restores (mem : Memory) (ms : List Memory)
    (h : ∀ m ∈ ms, m.id = mem.id → m.is_favorite = mem.is_favorite) :
    toggleFavoriteFailed mem ms = ms ∧
    List.Forall₂ (fun a b => b = { a with is_favorite := b.is_favorite } ∧
      (a.id ≠ mem.id → b = a)) ms (optimisticToggle mem ms) := by
  constructor
  · rw [toggleFailed_eq_map]
    exact map_toggle_id mem ms h
  · exact optimisticToggle_frame mem ms

/-- Witness for C9: with the argument equal to the stored entry, the failing
run leaves the one-element store unchanged. -/
theorem toggle_rollback_restores_witness :
    (∀ m ∈ [memFavStored], m.id = memFavStored.id →
      m.is_favorite = memFavStored.is_favorite) ∧
    toggleFavoriteFailed memFavStored [memFavStored] = [memFavStored] := by
  refine ⟨by decide, ?_⟩
  exact (toggle_rollback_restores memFavStored [memFavStored] (by decide)).1

/-- C10: after a successful fetchAllMemories the store holds a permutation of
the service's list sorted by non-increasing created_at with isLoading false;
after a failing fetch the memories list is unchanged and only isLoading is
reset. -/
theorem fetch_sorts_and_resets (s : StoreState) (l : List Memory) :
    ((fetchAllMemories (Except.ok l) s).memories.Perm l ∧
      List.Sorted createdAtGe (fetchAllMemories (Except.ok l) s).memories ∧
      (fetchAllMemories (Except.ok l) s).isLoading = false) ∧
    (∀ e : Unit,
      (fetchAllMemories (Except.error e) s).memories = s.memories ∧
      (fetchAllMemories (Except.error e) s).isLoading = false) := by
  refine ⟨⟨?_, ?_, rfl⟩, fun e => ⟨rfl, rfl⟩⟩
  · exact List.perm_insertionSort createdAtGe l
  · exact List.sorted_insertionSort createdAtGe l
